import Mathlib

/-!
Verification development for the CV-analyzer application (`src/app.py`).

The single source file is a Streamlit script.  We shallowly embed its core
functions over pure data:

* floats are modelled as rationals (`ℚ`); no claim under study depends on
  floating-point rounding;
* a pandas `DataFrame` is a list of named columns of optional cells
  (`none` models NaN / a missing cell);
* an uploaded file is a name plus either parsed content or `none`, the
  latter modelling a file with no parseable content, on which
  `pandas.read_csv` raises `EmptyDataError`;
* Python code that can raise is embedded with `Option` / `Except`
  (`none` / `Except.error` where the Python raises);
* the Streamlit multiselect of cycles (`select_cycles`) is modelled at its
  default, where every detected cycle is selected;
* matplotlib figures are modelled as the list of plotted series (label and
  colour) together with the axis label strings; `colormaps.get_cmap 'tab10'`
  is a 10-colour palette, modelled by the index passed to it modulo 10;
* a Streamlit upload is a one-shot stream: `pd.read_csv` reads it without
  rewinding, so a second read of a file already parsed in the same render
  pass sees an exhausted stream and raises `EmptyDataError`; the re-read of
  `files[0]` at the end of `plot_multi_cv` (src/app.py line 131) is modelled
  accordingly by `secondReadUnits`.
-/

/-- A cell of a parsed CSV column: a number or a string. -/
inductive CellVal where
  | num (q : ℚ)
  | str (s : String)
deriving DecidableEq

/-- A parsed pandas data frame: named columns of optional cells
(`none` is a NaN / missing cell). -/
structure DataFrame where
  cols : List (String × List (Option CellVal))
deriving DecidableEq

/-- An uploaded file: its name, and its parsed content, or `none` when the
file has no parseable content (pandas raises `EmptyDataError` on it). -/
structure UploadedFile where
  name : String
  content : Option DataFrame
deriving DecidableEq

/-- Models `df.get(c, None)` / `c in df.columns` followed by `df[c]`:
the first column named `c`, if any. -/
def dfGet (df : DataFrame) (c : String) : Option (List (Option CellVal)) :=
  (df.cols.find? (fun col => col.1 == c)).map (fun col => col.2)

/-- Models Python `str(...)` on a cell value. -/
def cellStr : CellVal → String
  | CellVal.num q => toString q
  | CellVal.str s => s

/-- Models the unit-extraction in `read_cv_data` (src/app.py lines 23-30):
if the column is present, drop NaNs and take `str` of the first entry,
otherwise keep the default. -/
def firstUnit (df : DataFrame) (colName : String) (dflt : String) : String :=
  match dfGet df colName with
  | none => dflt
  | some col =>
    match col.filterMap id with
    | [] => dflt
    | c :: _ => cellStr c

/-- Embeds `read_cv_data` (src/app.py lines 10-32).  A file whose content is
`none` hits the `EmptyDataError` branch and returns `(None, None, "V", "A")`;
otherwise the `x` / `y` columns (or `None` when absent) and the units are
returned. -/
def read_cv_data (file : UploadedFile) :
    Option (List (Option CellVal)) × Option (List (Option CellVal)) × String × String :=
  match file.content with
  | none => (none, none, "V", "A")
  | some df =>
    (dfGet df "x", dfGet df "y", firstUnit df "x_unit" "V", firstUnit df "y_unit" "A")

/-- Numeric view of a column, as consumed by numpy/matplotlib; the claims
under study only involve numeric data columns, so non-numeric cells are
mapped to `0` rather than to a NaN value. -/
def colVals (col : List (Option CellVal)) : List ℚ :=
  col.map (fun c => match c with | some (CellVal.num q) => q | _ => 0)

/-- The scanning loop of `split_cycles_by_return_to_start`
(src/app.py lines 42-46): for each index `i` (taken from
`range(1, len(potential))`), close a segment `[start, i)` and restart at `i`
whenever `|potential[i] - v0| < tol` and `i - start > 10`; the constant `10`
is hard-coded in the source.  Returns the accumulated segments and the final
`start_idx`. -/
def splitGo (p : List ℚ) (tol v0 : ℚ) : List ℕ → ℕ → List (ℕ × ℕ) → List (ℕ × ℕ) × ℕ
  | [], start, segs => (segs, start)
  | i :: rest, start, segs =>
    if |p.getD i 0 - v0| < tol ∧ i - start > 10 then
      splitGo p tol v0 rest i (segs ++ [(start, i)])
    else
      splitGo p tol v0 rest start segs

/-- Embeds `split_cycles_by_return_to_start` (src/app.py lines 34-51).
The source evaluates `potential[0]` unconditionally, so the empty sequence
raises `IndexError`, modelled by `none`.  After the scan, the trailing
segment `[start, len)` is appended whenever `start < len`. -/
def split_cycles_by_return_to_start (p : List ℚ) (tol : ℚ) : Option (List (ℕ × ℕ)) :=
  match p with
  | [] => none
  | v0 :: _ =>
    let r := splitGo p tol v0 (List.range' 1 (p.length - 1)) 0 []
    if r.2 < p.length then some (r.1 ++ [(r.2, p.length)]) else some r.1

/-- Modelled from the spec: the segmenter contract
`segment(potential, tolerance = 1e-3, min_length = 10)`, in which the
minimum cycle length is an explicit parameter.  The scanning loop is that of
`splitGo` with the hard-coded `10` generalised to `min_length`. -/
def segmentSpecGo (p : List ℚ) (tol v0 : ℚ) (min_length : ℕ) :
    List ℕ → ℕ → List (ℕ × ℕ) → List (ℕ × ℕ) × ℕ
  | [], start, segs => (segs, start)
  | i :: rest, start, segs =>
    if |p.getD i 0 - v0| < tol ∧ i - start > min_length then
      segmentSpecGo p tol v0 min_length rest i (segs ++ [(start, i)])
    else
      segmentSpecGo p tol v0 min_length rest start segs

/-- Modelled from the spec: the segmenter with `min_length` as a parameter
(the source's `split_cycles_by_return_to_start` exposes no such parameter). -/
def segment_spec (p : List ℚ) (tol : ℚ) (min_length : ℕ) : Option (List (ℕ × ℕ)) :=
  match p with
  | [] => none
  | v0 :: _ =>
    let r := segmentSpecGo p tol v0 min_length (List.range' 1 (p.length - 1)) 0 []
    if r.2 < p.length then some (r.1 ++ [(r.2, p.length)]) else some r.1

/-- A clipped centred window average, used as the value-level placeholder
inside `savgol_filter`. -/
def windowAvg (values : List ℚ) (i w : ℕ) : ℚ :=
  let lo := i - w / 2
  let hi := min (i + w / 2 + 1) values.length
  let seg := (values.drop lo).take (hi - lo)
  seg.sum / seg.length

/-- Modelled from the spec: `scipy.signal.savgol_filter` is external to the
repository.  Per the spec it fails (raises) when the input is shorter than
the window, and otherwise returns an output of the same length as the input.
The smoothed values themselves are outside every claim under study, so a
same-length windowed average stands in for the Savitzky-Golay coefficients. -/
def savgol_filter (values : List ℚ) (window order : ℕ) : Option (List ℚ) :=
  if values.length < window then none
  else some ((List.range values.length).map (fun i => windowAvg values i window))

/-- Scan keeping the index of the first strictly greatest element seen so
far; `best` is the current maximum, `bi` its index, `i` the index of the
head of the remaining list. -/
def argmaxGo : List ℚ → ℚ → ℕ → ℕ → ℕ
  | [], _, bi, _ => bi
  | x :: xs, best, bi, i =>
    if best < x then argmaxGo xs x i (i + 1) else argmaxGo xs best bi (i + 1)

/-- Modelled from the spec: `numpy.argmax` (external library), which returns
the index of the first occurrence of the maximum and raises on an empty
array (`none` here). -/
def np_argmax : List ℚ → Option ℕ
  | [] => none
  | x :: xs => some (argmaxGo xs x 0 1)

/-- Scan keeping the index of the first strictly least element seen so far. -/
def argminGo : List ℚ → ℚ → ℕ → ℕ → ℕ
  | [], _, bi, _ => bi
  | x :: xs, best, bi, i =>
    if x < best then argminGo xs x i (i + 1) else argminGo xs best bi (i + 1)

/-- Modelled from the spec: `numpy.argmin` (external library), first
occurrence of the minimum, `none` on an empty array. -/
def np_argmin : List ℚ → Option ℕ
  | [] => none
  | x :: xs => some (argminGo xs x 0 1)

/-- A matplotlib colour in this script: an index into the `tab10` palette
(already reduced mod 10 at the call sites), or a named colour string such as
`blue`, `red`, `ro`, `bo`. -/
inductive PlotColor where
  | palette (n : ℕ)
  | named (s : String)
deriving DecidableEq

/-- One plotted series: its legend label and its colour. -/
structure PlotSeries where
  label : String
  color : PlotColor
deriving DecidableEq

/-- A figure: the plotted series in order, and the axis labels. -/
structure Figure where
  series : List PlotSeries
  xlabel : String
  ylabel : String
deriving DecidableEq

/-- Python slice `l[start:stop]` on a list (for 0 ≤ start ≤ stop ≤ len). -/
def sliceList (l : List ℚ) (start stop : ℕ) : List ℚ :=
  (l.drop start).take (stop - start)

/-- Embeds `select_cycles` (src/app.py lines 53-57) at the Streamlit
multiselect's default, where every cycle is selected: the indices
`0, ..., len(segments) - 1`. -/
def select_cycles (segments : List (ℕ × ℕ)) : List ℕ :=
  List.range segments.length

/-- The per-cycle plotting loop shared by `plot_single_cv` (src/app.py lines
71-78, with `colorOf j = j % 10`) and `plot_multi_cv` (lines 114-121, with
`colorOf j = (i + j) % 10`): for each selected cycle `j`, plot the raw slice
and, when smoothing is on, the Savitzky-Golay smoothed slice, which raises
(`Except.error`) when the slice is shorter than the window. -/
def cyclesLoop (pot cur : List ℚ) (segments : List (ℕ × ℕ)) (nm : String)
    (smooth : Bool) (colorOf : ℕ → ℕ) :
    List ℕ → List PlotSeries → Except String (List PlotSeries)
  | [], acc => Except.ok acc
  | j :: rest, acc =>
    match segments.get? j with
    | none => Except.error "IndexError"
    | some seg =>
      let s1 : PlotSeries :=
        ⟨nm ++ " cycle " ++ toString (j + 1), PlotColor.palette (colorOf j)⟩
      if smooth then
        match savgol_filter (sliceList pot seg.1 seg.2) 11 3,
              savgol_filter (sliceList cur seg.1 seg.2) 11 3 with
        | some _, some _ =>
          cyclesLoop pot cur segments nm smooth colorOf rest
            (acc ++ [s1, ⟨nm ++ " cycle " ++ toString (j + 1) ++ " smoothed",
                          PlotColor.palette (colorOf j)⟩])
        | _, _ => Except.error "ValueError"
      else
        cyclesLoop pot cur segments nm smooth colorOf rest (acc ++ [s1])

/-- Embeds `plot_single_cv` (src/app.py lines 60-96).  Missing `x`/`y`
columns raise `ValueError` (line 63).  With `auto_split` the cycles are
plotted with palette colour `i % 10`; otherwise one raw series (blue) and
optionally a smoothed series (red).  Peaks are marked only when
`mark_peaks` is set and `auto_split` is not (line 86); `np.argmax` /
`np.argmin` raise on an empty current. -/
def plot_single_cv (file : UploadedFile) (label : Option String)
    (smooth mark_peaks auto_split : Bool) : Except String Figure :=
  match read_cv_data file with
  | (some pcol, some ccol, x_unit, y_unit) =>
    let potential := colVals pcol
    let current := colVals ccol
    let nm := label.getD file.name
    let baseE : Except String (List PlotSeries) :=
      if auto_split then
        match split_cycles_by_return_to_start potential (1 / 1000) with
        | none => Except.error "IndexError"
        | some segments =>
          cyclesLoop potential current segments nm smooth (fun j => j % 10)
            (select_cycles segments) []
      else
        let raw : PlotSeries := ⟨nm ++ " (raw)", PlotColor.named "blue"⟩
        if smooth then
          match savgol_filter potential 11 3, savgol_filter current 11 3 with
          | some _, some _ =>
            Except.ok [raw, ⟨nm ++ " (smoothed)", PlotColor.named "red"⟩]
          | _, _ => Except.error "ValueError"
        else Except.ok [raw]
    match baseE with
    | Except.error e => Except.error e
    | Except.ok base =>
      if mark_peaks && !auto_split then
        match np_argmax current, np_argmin current with
        | some _, some _ =>
          Except.ok ⟨base ++ [⟨"Ox peak", PlotColor.named "ro"⟩,
                              ⟨"Red peak", PlotColor.named "bo"⟩],
                     "Potential (" ++ x_unit ++ ")", "Current (" ++ y_unit ++ ")"⟩
        | _, _ => Except.error "ValueError"
      else
        Except.ok ⟨base, "Potential (" ++ x_unit ++ ")", "Current (" ++ y_unit ++ ")"⟩
  | _ => Except.error "CSV missing required columns"

/-- Models `if selected_files and f.name not in selected_files: continue`
(src/app.py line 104): Python truthiness makes both `None` and the empty
list skip nothing. -/
def skipFile (sel : Option (List String)) (nm : String) : Bool :=
  match sel with
  | none => false
  | some l => !l.isEmpty && !(l.contains nm)

/-- The body of the `for i, f in enumerate(files)` loop of `plot_multi_cv`
(src/app.py lines 103-128) for one file `f` at index `i`: the series it
contributes, `Except.error` where the Python body raises, and `[]` when the
file is deselected or its `x`/`y` columns are missing (`continue`). -/
def multiFileSeries (i : ℕ) (f : UploadedFile) (smooth : Bool)
    (sel : Option (List String)) (auto_split : Bool) :
    Except String (List PlotSeries) :=
  if skipFile sel f.name then Except.ok []
  else
    match read_cv_data f with
    | (some pcol, some ccol, _, _) =>
      let potential := colVals pcol
      let current := colVals ccol
      if auto_split then
        match split_cycles_by_return_to_start potential (1 / 1000) with
        | none => Except.error "IndexError"
        | some segments =>
          cyclesLoop potential current segments f.name smooth
            (fun j => (i + j) % 10) (select_cycles segments) []
      else
        let raw : PlotSeries :=
          ⟨f.name.replace ".csv" "" ++ " (raw)", PlotColor.palette (i % 10)⟩
        if smooth then
          match savgol_filter potential 11 3, savgol_filter current 11 3 with
          | some _, some _ =>
            Except.ok [raw, ⟨f.name.replace ".csv" "" ++ " (smoothed)",
                             PlotColor.palette (i % 10)⟩]
          | _, _ => Except.error "ValueError"
        else Except.ok [raw]
    | _ => Except.ok []

/-- The `enumerate(files)` loop of `plot_multi_cv`: concatenates each
file's series, propagating the first raised exception. -/
def multiGo (smooth : Bool) (sel : Option (List String)) (auto_split : Bool) :
    List UploadedFile → ℕ → Except String (List PlotSeries)
  | [], _ => Except.ok []
  | f :: rest, i =>
    match multiFileSeries i f smooth sel auto_split with
    | Except.error e => Except.error e
    | Except.ok here =>
      match multiGo smooth sel auto_split rest (i + 1) with
      | Except.error e => Except.error e
      | Except.ok others => Except.ok (here ++ others)

/-- Models the axis-unit computation of src/app.py lines 130-135: a second
`read_cv_data(files[0])` after the plotting loop.  The loop (line 103)
already called `read_cv_data` on every file not skipped by the selection
test of line 104, and `pd.read_csv` consumes the Streamlit upload's stream
without rewinding, so this second read sees an exhausted stream and raises
`EmptyDataError` — yielding `(None, None, "V", "A")` and hence the default
units — whenever `files[0]` was read in the loop.  Only when `files[0]` was
deselected by name is its stream still unread, and only then is its content
actually parsed here (lines 132-133 still defaulting the units when its
`x`/`y` columns are missing). -/
def secondReadUnits : List UploadedFile → Option (List String) → String × String
  | [], _ => ("V", "A")
  | f0 :: _, sel =>
    if skipFile sel f0.name then
      match read_cv_data f0 with
      | (some _, some _, xu, yu) => (xu, yu)
      | _ => ("V", "A")
    else ("V", "A")

/-- Embeds `plot_multi_cv` (src/app.py lines 99-141). -/
def plot_multi_cv (files : List UploadedFile) (smooth : Bool)
    (sel : Option (List String)) (auto_split : Bool) : Except String Figure :=
  match multiGo smooth sel auto_split files 0 with
  | Except.error e => Except.error e
  | Except.ok series =>
    let u := secondReadUnits files sel
    Except.ok ⟨series, "Potential (" ++ u.1 ++ ")", "Current (" ++ u.2 ++ ")"⟩

/-- Verification predicate: `chainFrom a segs b` holds when `segs` is a
chain of non-empty half-open intervals `[a, e1), [e1, e2), ..., [e_k, b)` —
i.e. the segments are contiguous, non-overlapping, in increasing start
order, and cover exactly `[a, b)`. -/
def chainFrom : ℕ → List (ℕ × ℕ) → ℕ → Bool
  | a, [], b => a == b
  | a, (s, e) :: rest, b => s == a && decide (a < e) && chainFrom e rest b

/-! ## Properties of the cycle segmenter -/

lemma chainFrom_nil {a b : ℕ} : chainFrom a [] b = true ↔ a = b := by
  simp [chainFrom]

lemma chainFrom_cons {a b s e : ℕ} {rest : List (ℕ × ℕ)} :
    chainFrom a ((s, e) :: rest) b = true ↔ s = a ∧ a < e ∧ chainFrom e rest b = true := by
  simp [chainFrom, and_assoc]

lemma chainFrom_append_single :
    ∀ (xs : List (ℕ × ℕ)) (a b c : ℕ), chainFrom a xs b = true → b < c →
      chainFrom a (xs ++ [(b, c)]) c = true
  | [], a, b, c, h, hbc => by
    rw [chainFrom_nil] at h
    subst h
    rw [List.nil_append, chainFrom_cons]
    exact ⟨rfl, hbc, chainFrom_nil.mpr rfl⟩
  | (s, e) :: rest, a, b, c, h, hbc => by
    rw [chainFrom_cons] at h
    rw [List.cons_append, chainFrom_cons]
    exact ⟨h.1, h.2.1, chainFrom_append_single rest e b c h.2.2 hbc⟩

lemma chainFrom_le : ∀ (xs : List (ℕ × ℕ)) (a b : ℕ), chainFrom a xs b = true → a ≤ b
  | [], a, b, h => le_of_eq (chainFrom_nil.mp h)
  | (s, e) :: rest, a, b, h => by
    rw [chainFrom_cons] at h
    exact le_trans (le_of_lt h.2.1) (chainFrom_le rest e b h.2.2)

lemma chainFrom_mem_bounds :
    ∀ (xs : List (ℕ × ℕ)) (a b : ℕ), chainFrom a xs b = true →
      ∀ s ∈ xs, a ≤ s.1 ∧ s.1 < s.2 ∧ s.2 ≤ b
  | [], _, _, _, s, hs => absurd hs (List.not_mem_nil s)
  | (s0, e0) :: rest, a, b, h, s, hs => by
    rw [chainFrom_cons] at h
    obtain ⟨hs0, hae, hrest⟩ := h
    rcases List.mem_cons.mp hs with rfl | hmem
    · exact ⟨le_of_eq hs0.symm, hs0 ▸ hae, chainFrom_le rest e0 b hrest⟩
    · obtain ⟨h1, h2, h3⟩ := chainFrom_mem_bounds rest e0 b hrest s hmem
      exact ⟨le_trans (le_of_lt (hs0 ▸ hae)) h1, h2, h3⟩

lemma chainFrom_cover :
    ∀ (xs : List (ℕ × ℕ)) (a b : ℕ), chainFrom a xs b = true →
      ∀ k, a ≤ k → k < b → ∃! s : ℕ × ℕ, s ∈ xs ∧ s.1 ≤ k ∧ k < s.2
  | [], a, b, h, k, hak, hkb => by
    rw [chainFrom_nil] at h
    exact absurd (lt_of_le_of_lt hak hkb) (h ▸ lt_irrefl a)
  | (s0, e0) :: rest, a, b, h, k, hak, hkb => by
    rw [chainFrom_cons] at h
    obtain ⟨hs0, hae, hrest⟩ := h
    subst hs0
    by_cases hk : k < e0
    · refine ⟨(s0, e0), ⟨List.mem_cons_self _ _, hak, hk⟩, ?_⟩
      rintro ⟨s1, e1⟩ ⟨hmem, hle, hlt⟩
      rcases List.mem_cons.mp hmem with heq | hmem
      · exact heq
      · obtain ⟨h1, _, _⟩ := chainFrom_mem_bounds rest e0 b hrest _ hmem
        exact absurd (lt_of_le_of_lt (le_trans h1 hle) hk) (lt_irrefl e0)
    · push_neg at hk
      obtain ⟨s, hs, huniq⟩ := chainFrom_cover rest e0 b hrest k hk hkb
      refine ⟨s, ⟨List.mem_cons_of_mem _ hs.1, hs.2⟩, ?_⟩
      rintro ⟨s1, e1⟩ ⟨hmem, hle, hlt⟩
      rcases List.mem_cons.mp hmem with heq | hmem
      · cases heq
        exact absurd (lt_of_le_of_lt hk hlt) (lt_irrefl e0)
      · exact huniq _ ⟨hmem, hle, hlt⟩

lemma splitGo_inv (p : List ℚ) (tol v0 : ℚ) :
    ∀ (idxs : List ℕ) (start : ℕ) (segs : List (ℕ × ℕ)),
      chainFrom 0 segs start = true →
      (∀ s ∈ segs, 10 < s.2 - s.1) →
      chainFrom 0 (splitGo p tol v0 idxs start segs).1 (splitGo p tol v0 idxs start segs).2 = true ∧
      (∀ s ∈ (splitGo p tol v0 idxs start segs).1, 10 < s.2 - s.1) ∧
      ((splitGo p tol v0 idxs start segs).2 = start ∨ (splitGo p tol v0 idxs start segs).2 ∈ idxs)
  | [], start, segs, hchain, hlen => ⟨hchain, hlen, Or.inl rfl⟩
  | i :: rest, start, segs, hchain, hlen => by
    by_cases hc : |p.getD i 0 - v0| < tol ∧ i - start > 10
    · rw [splitGo, if_pos hc]
      have hsi : start < i := by omega
      have hchain' : chainFrom 0 (segs ++ [(start, i)]) i = true :=
        chainFrom_append_single segs 0 start i hchain hsi
      have hlen' : ∀ s ∈ segs ++ [(start, i)], 10 < s.2 - s.1 := by
        intro s hs
        rcases List.mem_append.mp hs with hs | hs
        · exact hlen s hs
        · rcases List.mem_singleton.mp hs with rfl
          exact hc.2
      obtain ⟨h1, h2, h3⟩ := splitGo_inv p tol v0 rest i (segs ++ [(start, i)]) hchain' hlen'
      refine ⟨h1, h2, ?_⟩
      rcases h3 with h3 | h3
      · right
        rw [h3]
        exact List.mem_cons_self i rest
      · exact Or.inr (List.mem_cons_of_mem i h3)
    · rw [splitGo, if_neg hc]
      obtain ⟨h1, h2, h3⟩ := splitGo_inv p tol v0 rest start segs hchain hlen
      refine ⟨h1, h2, ?_⟩
      rcases h3 with h3 | h3
      · exact Or.inl h3
      · exact Or.inr (List.mem_cons_of_mem i h3)

lemma splitGo_id (p : List ℚ) (tol v0 : ℚ) :
    ∀ (idxs : List ℕ) (segs : List (ℕ × ℕ)),
      (∀ i ∈ idxs, ¬ (|p.getD i 0 - v0| < tol ∧ i - 0 > 10)) →
      splitGo p tol v0 idxs 0 segs = (segs, 0)
  | [], segs, _ => rfl
  | i :: rest, segs, h => by
    rw [splitGo, if_neg (h i (List.mem_cons_self i rest))]
    exact splitGo_id p tol v0 rest segs (fun j hj => h j (List.mem_cons_of_mem i hj))

/-- Packaging of `split_cycles_by_return_to_start` on a non-empty input: the
scan yields a chain of segments from `0` to the final `start`, all of length
greater than `10`, the final `start` is below the length, and the trailing
segment is appended. -/
lemma split_cycles_unfold (v0 : ℚ) (t : List ℚ) (tol : ℚ) :
    ∃ segs1 r2,
      split_cycles_by_return_to_start (v0 :: t) tol =
        some (segs1 ++ [(r2, (v0 :: t).length)]) ∧
      chainFrom 0 segs1 r2 = true ∧
      (∀ s ∈ segs1, 10 < s.2 - s.1) ∧
      r2 < (v0 :: t).length := by
  obtain ⟨h1, h2, h3⟩ :=
    splitGo_inv (v0 :: t) tol v0 (List.range' 1 ((v0 :: t).length - 1)) 0 []
      (chainFrom_nil.mpr rfl) (by intro s hs; exact absurd hs (List.not_mem_nil s))
  have hlt : (splitGo (v0 :: t) tol v0 (List.range' 1 ((v0 :: t).length - 1)) 0 []).2 <
      (v0 :: t).length := by
    rcases h3 with h3 | h3
    · rw [h3]; exact Nat.succ_pos _
    · have := List.mem_range'_1.mp h3
      simp only [List.length_cons] at this ⊢
      omega
  refine ⟨(splitGo (v0 :: t) tol v0 (List.range' 1 ((v0 :: t).length - 1)) 0 []).1,
          (splitGo (v0 :: t) tol v0 (List.range' 1 ((v0 :: t).length - 1)) 0 []).2,
          ?_, h1, h2, hlt⟩
  simp only [split_cycles_by_return_to_start]
  rw [if_pos hlt]

/-- C1: for every potential sequence (the source raises `IndexError` on the
empty one, hence non-emptiness), `split_cycles_by_return_to_start` returns
segments forming a chain `0 = a0 < a1 < ... < ak = len` of contiguous,
non-overlapping half-open ranges in increasing start order, and every index
of `[0, len)` lies in exactly one returned segment. -/
theorem split_cycles_partition (p : List ℚ) (tol : ℚ) (h : p ≠ []) :
    ∃ segs, split_cycles_by_return_to_start p tol = some segs ∧
      chainFrom 0 segs p.length = true ∧
      ∀ k, k < p.length → ∃! s : ℕ × ℕ, s ∈ segs ∧ s.1 ≤ k ∧ k < s.2 := by
  obtain ⟨v0, t, rfl⟩ : ∃ v0 t, p = v0 :: t := by
    cases p with
    | nil => exact absurd rfl h
    | cons a l => exact ⟨a, l, rfl⟩
  obtain ⟨segs1, r2, heq, hchain, _, hlt⟩ := split_cycles_unfold v0 t tol
  have hfull : chainFrom 0 (segs1 ++ [(r2, (v0 :: t).length)]) (v0 :: t).length = true :=
    chainFrom_append_single segs1 0 r2 (v0 :: t).length hchain hlt
  exact ⟨segs1 ++ [(r2, (v0 :: t).length)], heq, hfull,
    fun k hk => chainFrom_cover _ 0 (v0 :: t).length hfull k (Nat.zero_le k) hk⟩

/-- Witness for C1 at the concrete one-point input `[7]`. -/
theorem split_cycles_partition_witness :
    ∃ segs, split_cycles_by_return_to_start [(7 : ℚ)] 1 = some segs ∧
      chainFrom 0 segs 1 = true ∧
      ∀ k, k < 1 → ∃! s : ℕ × ℕ, s ∈ segs ∧ s.1 ≤ k ∧ k < s.2 :=
  split_cycles_partition [(7 : ℚ)] 1 (by decide)

/-- C10: on any non-empty input every returned segment is non-empty, and
every returned segment except possibly the last has length greater than 10. -/
theorem split_cycles_seg_lengths (p : List ℚ) (tol : ℚ) (h : p ≠ []) :
    ∃ segs, split_cycles_by_return_to_start p tol = some segs ∧
      (∀ s ∈ segs, s.1 < s.2) ∧
      (∀ s ∈ segs.dropLast, 10 < s.2 - s.1) := by
  obtain ⟨v0, t, rfl⟩ : ∃ v0 t, p = v0 :: t := by
    cases p with
    | nil => exact absurd rfl h
    | cons a l => exact ⟨a, l, rfl⟩
  obtain ⟨segs1, r2, heq, hchain, hlong, hlt⟩ := split_cycles_unfold v0 t tol
  have hfull : chainFrom 0 (segs1 ++ [(r2, (v0 :: t).length)]) (v0 :: t).length = true :=
    chainFrom_append_single segs1 0 r2 (v0 :: t).length hchain hlt
  refine ⟨segs1 ++ [(r2, (v0 :: t).length)], heq, ?_, ?_⟩
  · intro s hs
    exact (chainFrom_mem_bounds _ 0 (v0 :: t).length hfull s hs).2.1
  · intro s hs
    rw [List.dropLast_concat] at hs
    exact hlong s hs

/-- Witness for C10 at the concrete two-point input `[2, 4]`. -/
theorem split_cycles_seg_lengths_witness :
    ∃ segs, split_cycles_by_return_to_start [(2 : ℚ), 4] 1 = some segs ∧
      (∀ s ∈ segs, s.1 < s.2) ∧
      (∀ s ∈ segs.dropLast, 10 < s.2 - s.1) :=
  split_cycles_seg_lengths [(2 : ℚ), 4] 1 (by decide)

lemma splitGo_eq_segmentSpecGo (p : List ℚ) (tol v0 : ℚ) :
    ∀ (idxs : List ℕ) (start : ℕ) (segs : List (ℕ × ℕ)),
      splitGo p tol v0 idxs start segs = segmentSpecGo p tol v0 10 idxs start segs
  | [], _, _ => rfl
  | i :: rest, start, segs => by
    rw [splitGo, segmentSpecGo]
    by_cases hc : |p.getD i 0 - v0| < tol ∧ i - start > 10
    · rw [if_pos hc, if_pos hc]
      exact splitGo_eq_segmentSpecGo p tol v0 rest i (segs ++ [(start, i)])
    · rw [if_neg hc, if_neg hc]
      exact splitGo_eq_segmentSpecGo p tol v0 rest start segs

/-- Counterexample to C2: the source's segmenter has no `min_length`
parameter (the threshold `10` is hard-coded), so on
`[0,1,2,3,0,1,2,3,0]` with `tol = 1e-3` it returns the single segment
`[(0, 9)]` and not the claimed `[(0,4), (4,8), (8,9)]`. -/
theorem split_cycles_no_min_length_param_cex :
    split_cycles_by_return_to_start [0, 1, 2, 3, 0, 1, 2, 3, 0] (1 / 1000) = some [(0, 9)] ∧
    (some [(0, 9)] : Option (List (ℕ × ℕ))) ≠ some [(0, 4), (4, 8), (8, 9)] := by
  constructor
  · with_unfolding_all decide
  · decide

/-- C2, amended: the segmenter accepts a tolerance parameter but no
`min_length` parameter; it behaves exactly like the spec's contract
`segment` with `min_length` fixed at the hard-coded `10` (for every input),
so the spec's worked example only holds for the spec-modelled `segment_spec`
at `min_length = 3`, while the source returns `[(0, 9)]` on that input. -/
theorem split_cycles_fixed_min_length :
    (∀ (p : List ℚ) (tol : ℚ),
      split_cycles_by_return_to_start p tol = segment_spec p tol 10) ∧
    segment_spec [0, 1, 2, 3, 0, 1, 2, 3, 0] (1 / 1000) 3 = some [(0, 4), (4, 8), (8, 9)] ∧
    split_cycles_by_return_to_start [0, 1, 2, 3, 0, 1, 2, 3, 0] (1 / 1000) = some [(0, 9)] := by
  refine ⟨?_, by with_unfolding_all decide, by with_unfolding_all decide⟩
  intro p tol
  cases p with
  | nil => rfl
  | cons v0 t =>
    simp only [split_cycles_by_return_to_start, segment_spec,
      splitGo_eq_segmentSpecGo]

/-- Counterexample to C3: on the empty potential sequence the source
evaluates `potential[0]` and raises `IndexError` instead of yielding any
(empty or one-element) list of segments. -/
theorem split_cycles_empty_raises :
    split_cycles_by_return_to_start ([] : List ℚ) (1 / 1000) = none := rfl

/-- C3, amended: a single-point sequence yields exactly the segment
`(0, 1)`; the empty sequence makes the segmenter raise `IndexError` (no
segments are returned); and on any non-empty input on which no
return-to-start event fires, the result is exactly one segment spanning the
whole sequence. -/
theorem split_cycles_edge_cases :
    split_cycles_by_return_to_start [(5 : ℚ)] (1 / 1000) = some [(0, 1)] ∧
    split_cycles_by_return_to_start ([] : List ℚ) (1 / 1000) = none ∧
    ∀ (p : List ℚ) (tol : ℚ), p ≠ [] →
      (∀ i, i < p.length → 0 < i → ¬ (|p.getD i 0 - p.getD 0 0| < tol ∧ i - 0 > 10)) →
      split_cycles_by_return_to_start p tol = some [(0, p.length)] := by
  refine ⟨by with_unfolding_all decide, rfl, ?_⟩
  intro p tol hne hnoev
  obtain ⟨v0, t, rfl⟩ : ∃ v0 t, p = v0 :: t := by
    cases p with
    | nil => exact absurd rfl hne
    | cons a l => exact ⟨a, l, rfl⟩
  have hid : splitGo (v0 :: t) tol v0 (List.range' 1 ((v0 :: t).length - 1)) 0 [] = ([], 0) := by
    refine splitGo_id (v0 :: t) tol v0 _ [] ?_
    intro i hi
    have hmem := List.mem_range'_1.mp hi
    have h0 : (0 : ℕ) < i := lt_of_lt_of_le Nat.zero_lt_one hmem.1
    have hilen : i < (v0 :: t).length := by
      simp only [List.length_cons] at hmem ⊢
      omega
    have := hnoev i hilen h0
    simpa using this
  simp only [split_cycles_by_return_to_start, hid]
  rw [if_pos (by simp)]
  simp

/-- Witness for (the amended) C3, exercising the no-return-event case at
the concrete input `[1, 2]`. -/
theorem split_cycles_edge_cases_witness :
    split_cycles_by_return_to_start [(1 : ℚ), 2] (1 / 1000) = some [(0, 2)] := by
  have h := split_cycles_edge_cases.2.2 [(1 : ℚ), 2] (1 / 1000) (by decide)
    (by with_unfolding_all decide)
  simpa using h

/-- Counterexample to C1 at the empty potential sequence: the segmenter
returns no segment list at all (the source raises `IndexError` at
`potential[0]`), so in particular it does not return covering segments. -/
theorem split_cycles_empty_returns_nothing :
    ¬ ∃ segs, split_cycles_by_return_to_start ([] : List ℚ) (1 / 1000) = some segs := by
  rintro ⟨segs, h⟩
  exact Option.noConfusion h

/-! ## Properties of the smoother -/

/-- C4: the smoother signals an error whenever the input is shorter than the
window (11); for inputs of length at least 11 the output has the input's
length; and `plot_single_cv` propagates the error (raised `ValueError`)
when smoothing data shorter than the window, rather than truncating or
skipping. -/
theorem savgol_window_guard :
    (∀ values : List ℚ, values.length < 11 → savgol_filter values 11 3 = none) ∧
    (∀ values : List ℚ, 11 ≤ values.length →
      ∃ out, savgol_filter values 11 3 = some out ∧ out.length = values.length) ∧
    (∀ (file : UploadedFile) (label : Option String) (mark_peaks : Bool)
       (pcol ccol : List (Option CellVal)) (xu yu : String),
      read_cv_data file = (some pcol, some ccol, xu, yu) →
      (colVals pcol).length < 11 →
      plot_single_cv file label true mark_peaks false = Except.error "ValueError") := by
  refine ⟨?_, ?_, ?_⟩
  · intro values h
    simp [savgol_filter, h]
  · intro values h
    rw [savgol_filter, if_neg (Nat.not_lt.mpr h)]
    exact ⟨_, rfl, by simp⟩
  · intro file label mark_peaks pcol ccol xu yu hread hlen
    have hsav : savgol_filter (colVals pcol) 11 3 = none := by
      simp [savgol_filter, hlen]
    simp [plot_single_cv, hread, hsav]

/-- Witness for C4: a one-point input is rejected, an 11-point input keeps
its length, and single-file plotting of a one-point file with smoothing on
raises `ValueError`. -/
theorem savgol_window_guard_witness :
    savgol_filter [(9 : ℚ)] 11 3 = none ∧
    (∃ out, savgol_filter [(0 : ℚ), 1, 2, 3, 4, 5, 6, 7, 8, 9, 10] 11 3 = some out ∧
      out.length = 11) ∧
    plot_single_cv ⟨"w.csv", some ⟨[("x", [some (CellVal.num 1)]),
                                    ("y", [some (CellVal.num 2)])]⟩⟩ none true false false =
      Except.error "ValueError" :=
  ⟨savgol_window_guard.1 [(9 : ℚ)] (by decide),
   savgol_window_guard.2.1 [(0 : ℚ), 1, 2, 3, 4, 5, 6, 7, 8, 9, 10] (by decide),
   savgol_window_guard.2.2 ⟨"w.csv", some ⟨[("x", [some (CellVal.num 1)]),
                                            ("y", [some (CellVal.num 2)])]⟩⟩ none false
     [some (CellVal.num 1)] [some (CellVal.num 2)] "V" "A" (by decide) (by decide)⟩

/-! ## Properties of the loader and of missing-column handling -/

/-- Counterexample to C5: a CSV with `x`,`y` headers but zero data rows has
zero data rows, yet `read_cv_data` returns empty (non-null) series with the
default units, not `(None, None, "V", "A")` — pandas raises
`EmptyDataError` only on a file with no parseable content at all. -/
theorem read_cv_zero_rows_cex :
    read_cv_data ⟨"rows0.csv", some ⟨[("x", []), ("y", [])]⟩⟩ ≠ (none, none, "V", "A") ∧
    read_cv_data ⟨"rows0.csv", some ⟨[("x", []), ("y", [])]⟩⟩ = (some [], some [], "V", "A") :=
  ⟨by decide, by decide⟩

/-- C5, amended: a CSV with no parseable content at all (pandas
`EmptyDataError`) yields `(None, None, "V", "A")`, and in multi-file mode
such a file contributes nothing and is skipped without aborting the batch
(a header-only CSV with zero data rows instead yields empty non-null
series); a CSV whose `x_unit`/`y_unit` columns are absent yields the
default units `("V", "A")`. -/
theorem read_cv_empty_and_default_units :
    (∀ name, read_cv_data ⟨name, none⟩ = (none, none, "V", "A")) ∧
    (∀ (i : ℕ) (name : String) (smooth : Bool) (sel : Option (List String))
       (auto_split : Bool),
      multiFileSeries i ⟨name, none⟩ smooth sel auto_split = Except.ok []) ∧
    plot_multi_cv [⟨"e.csv", none⟩,
                   ⟨"ok.csv", some ⟨[("x", [some (CellVal.num 0)]),
                                     ("y", [some (CellVal.num 1)])]⟩⟩]
        false none false =
      Except.ok ⟨[⟨"ok (raw)", PlotColor.palette 1⟩], "Potential (V)", "Current (A)"⟩ ∧
    (∀ (name : String) (df : DataFrame),
      dfGet df "x_unit" = none → dfGet df "y_unit" = none →
      (read_cv_data ⟨name, some df⟩).2.2 = ("V", "A")) := by
  refine ⟨fun name => rfl, ?_, by with_unfolding_all rfl, ?_⟩
  · intro i name smooth sel auto_split
    cases hsk : skipFile sel name
    · simp [multiFileSeries, hsk, read_cv_data]
    · simp [multiFileSeries, hsk]
  · intro name df hx hy
    simp [read_cv_data, firstUnit, hx, hy]

/-- Witness for (the amended) C5 at concrete files. -/
theorem read_cv_empty_and_default_units_witness :
    read_cv_data ⟨"z.csv", none⟩ = (none, none, "V", "A") ∧
    multiFileSeries 0 ⟨"z.csv", none⟩ false none false = Except.ok [] ∧
    (read_cv_data ⟨"u.csv", some ⟨[("x", [some (CellVal.num 3)]),
                                   ("y", [some (CellVal.num 4)])]⟩⟩).2.2 = ("V", "A") :=
  ⟨read_cv_empty_and_default_units.1 "z.csv",
   read_cv_empty_and_default_units.2.1 0 "z.csv" false none false,
   read_cv_empty_and_default_units.2.2.2 "u.csv"
     ⟨[("x", [some (CellVal.num 3)]), ("y", [some (CellVal.num 4)])]⟩
     (by decide) (by decide)⟩

/-- C6: when a file lacks the `x` or `y` column, single-file mode raises
`ValueError` (fatal for that render), while multi-file mode contributes no
series for that file (`continue`) and still renders the remaining files. -/
theorem missing_columns_modes :
    (∀ (name : String) (df : DataFrame) (label : Option String)
       (smooth mark_peaks auto_split : Bool),
      dfGet df "x" = none ∨ dfGet df "y" = none →
      plot_single_cv ⟨name, some df⟩ label smooth mark_peaks auto_split =
        Except.error "CSV missing required columns") ∧
    (∀ (i : ℕ) (name : String) (df : DataFrame) (smooth : Bool)
       (sel : Option (List String)) (auto_split : Bool),
      dfGet df "x" = none ∨ dfGet df "y" = none →
      multiFileSeries i ⟨name, some df⟩ smooth sel auto_split = Except.ok []) ∧
    plot_multi_cv [⟨"bad.csv", some ⟨[("z", [some (CellVal.num 1)])]⟩⟩,
                   ⟨"good.csv", some ⟨[("x", [some (CellVal.num 2)]),
                                       ("y", [some (CellVal.num 3)])]⟩⟩]
        false none false =
      Except.ok ⟨[⟨"good (raw)", PlotColor.palette 1⟩], "Potential (V)", "Current (A)"⟩ := by
  refine ⟨?_, ?_, by with_unfolding_all rfl⟩
  · intro name df label smooth mark_peaks auto_split h
    rcases h with h | h
    · simp [plot_single_cv, read_cv_data, h]
    · rcases hx : dfGet df "x" with _ | xs
      · simp [plot_single_cv, read_cv_data, hx]
      · simp [plot_single_cv, read_cv_data, hx, h]
  · intro i name df smooth sel auto_split h
    cases hsk : skipFile sel name
    · rcases h with h | h
      · simp [multiFileSeries, hsk, read_cv_data, h]
      · rcases hx : dfGet df "x" with _ | xs
        · simp [multiFileSeries, hsk, read_cv_data, hx]
        · simp [multiFileSeries, hsk, read_cv_data, hx, h]
    · simp [multiFileSeries, hsk]

/-- Witness for C6 at a concrete file lacking the `x` column. -/
theorem missing_columns_modes_witness :
    plot_single_cv ⟨"nox.csv", some ⟨[("y", [some (CellVal.num 1)])]⟩⟩
        none false false false =
      Except.error "CSV missing required columns" ∧
    multiFileSeries 0 ⟨"nox.csv", some ⟨[("y", [some (CellVal.num 1)])]⟩⟩
        false none false = Except.ok [] :=
  ⟨missing_columns_modes.1 "nox.csv" ⟨[("y", [some (CellVal.num 1)])]⟩ none false false false
     (Or.inl (by decide)),
   missing_columns_modes.2.1 0 "nox.csv" ⟨[("y", [some (CellVal.num 1)])]⟩ false none false
     (Or.inl (by decide))⟩

/-! ## Properties of the peak locator -/

lemma argmaxGo_spec :
    ∀ (xs : List ℚ) (best : ℚ) (bi i : ℕ),
      (argmaxGo xs best bi i = bi ∧ ∀ k, k < xs.length → xs.getD k 0 ≤ best) ∨
      (∃ k, k < xs.length ∧ argmaxGo xs best bi i = i + k ∧ best < xs.getD k 0 ∧
        (∀ j, j < xs.length → xs.getD j 0 ≤ xs.getD k 0) ∧
        (∀ j, j < k → xs.getD j 0 < xs.getD k 0))
  | [], best, bi, i => Or.inl ⟨rfl, fun k hk => absurd hk (Nat.not_lt_zero k)⟩
  | x :: xs, best, bi, i => by
    rw [argmaxGo]
    by_cases hx : best < x
    · rw [if_pos hx]
      rcases argmaxGo_spec xs x i (i + 1) with ⟨heq, hall⟩ | ⟨k, hk, heq, hbest, hall, hfirst⟩
      · refine Or.inr ⟨0, Nat.succ_pos _, by rw [heq, Nat.add_zero], by simpa using hx, ?_, ?_⟩
        · intro j hj
          cases j with
          | zero => simp
          | succ j' =>
            simp only [List.getD_cons_succ, List.getD_cons_zero]
            exact hall j' (by simpa using hj)
        · intro j hj
          exact absurd hj (Nat.not_lt_zero j)
      · refine Or.inr ⟨k + 1, by simpa using hk, by rw [heq]; omega,
          by simpa using lt_trans hx hbest, ?_, ?_⟩
        · intro j hj
          cases j with
          | zero => simpa using le_of_lt hbest
          | succ j' =>
            simp only [List.getD_cons_succ]
            exact hall j' (by simpa using hj)
        · intro j hj
          cases j with
          | zero => simpa using hbest
          | succ j' =>
            simp only [List.getD_cons_succ]
            exact hfirst j' (by omega)
    · rw [if_neg hx]
      rcases argmaxGo_spec xs best bi (i + 1) with ⟨heq, hall⟩ | ⟨k, hk, heq, hbest, hall, hfirst⟩
      · refine Or.inl ⟨heq, ?_⟩
        intro j hj
        cases j with
        | zero => simpa using not_lt.mp hx
        | succ j' =>
          simp only [List.getD_cons_succ]
          exact hall j' (by simpa using hj)
      · refine Or.inr ⟨k + 1, by simpa using hk, by rw [heq]; omega,
          by simpa using hbest, ?_, ?_⟩
        · intro j hj
          cases j with
          | zero => simpa using le_of_lt (lt_of_le_of_lt (not_lt.mp hx) hbest)
          | succ j' =>
            simp only [List.getD_cons_succ]
            exact hall j' (by simpa using hj)
        · intro j hj
          cases j with
          | zero => simpa using lt_of_le_of_lt (not_lt.mp hx) hbest
          | succ j' =>
            simp only [List.getD_cons_succ]
            exact hfirst j' (by omega)

lemma argminGo_spec :
    ∀ (xs : List ℚ) (best : ℚ) (bi i : ℕ),
      (argminGo xs best bi i = bi ∧ ∀ k, k < xs.length → best ≤ xs.getD k 0) ∨
      (∃ k, k < xs.length ∧ argminGo xs best bi i = i + k ∧ xs.getD k 0 < best ∧
        (∀ j, j < xs.length → xs.getD k 0 ≤ xs.getD j 0) ∧
        (∀ j, j < k → xs.getD k 0 < xs.getD j 0))
  | [], best, bi, i => Or.inl ⟨rfl, fun k hk => absurd hk (Nat.not_lt_zero k)⟩
  | x :: xs, best, bi, i => by
    rw [argminGo]
    by_cases hx : x < best
    · rw [if_pos hx]
      rcases argminGo_spec xs x i (i + 1) with ⟨heq, hall⟩ | ⟨k, hk, heq, hbest, hall, hfirst⟩
      · refine Or.inr ⟨0, Nat.succ_pos _, by rw [heq, Nat.add_zero], by simpa using hx, ?_, ?_⟩
        · intro j hj
          cases j with
          | zero => simp
          | succ j' =>
            simp only [List.getD_cons_succ, List.getD_cons_zero]
            exact hall j' (by simpa using hj)
        · intro j hj
          exact absurd hj (Nat.not_lt_zero j)
      · refine Or.inr ⟨k + 1, by simpa using hk, by rw [heq]; omega,
          by simpa using lt_trans hbest hx, ?_, ?_⟩
        · intro j hj
          cases j with
          | zero => simpa using le_of_lt hbest
          | succ j' =>
            simp only [List.getD_cons_succ]
            exact hall j' (by simpa using hj)
        · intro j hj
          cases j with
          | zero => simpa using hbest
          | succ j' =>
            simp only [List.getD_cons_succ]
            exact hfirst j' (by omega)
    · rw [if_neg hx]
      rcases argminGo_spec xs best bi (i + 1) with ⟨heq, hall⟩ | ⟨k, hk, heq, hbest, hall, hfirst⟩
      · refine Or.inl ⟨heq, ?_⟩
        intro j hj
        cases j with
        | zero => simpa using not_lt.mp hx
        | succ j' =>
          simp only [List.getD_cons_succ]
          exact hall j' (by simpa using hj)
      · refine Or.inr ⟨k + 1, by simpa using hk, by rw [heq]; omega,
          by simpa using hbest, ?_, ?_⟩
        · intro j hj
          cases j with
          | zero => simpa using le_of_lt (lt_of_lt_of_le hbest (not_lt.mp hx))
          | succ j' =>
            simp only [List.getD_cons_succ]
            exact hall j' (by simpa using hj)
        · intro j hj
          cases j with
          | zero => simpa using lt_of_lt_of_le hbest (not_lt.mp hx)
          | succ j' =>
            simp only [List.getD_cons_succ]
            exact hfirst j' (by omega)

lemma np_argmax_spec (l : List ℚ) (h : l ≠ []) :
    ∃ oi, np_argmax l = some oi ∧ oi < l.length ∧
      (∀ k, k < l.length → l.getD k 0 ≤ l.getD oi 0) ∧
      (∀ k, k < oi → l.getD k 0 < l.getD oi 0) := by
  cases l with
  | nil => exact absurd rfl h
  | cons x xs =>
    rcases argmaxGo_spec xs x 0 1 with ⟨heq, hall⟩ | ⟨k, hk, heq, hbest, hall, hfirst⟩
    · refine ⟨0, by rw [np_argmax, heq], Nat.succ_pos _, ?_, ?_⟩
      · intro j hj
        cases j with
        | zero => simp
        | succ j' =>
          simp only [List.getD_cons_succ, List.getD_cons_zero]
          exact hall j' (by simpa using hj)
      · intro j hj
        exact absurd hj (Nat.not_lt_zero j)
    · refine ⟨1 + k, by rw [np_argmax, heq], by simpa using by omega, ?_, ?_⟩
      · intro j hj
        have h1k : (1 : ℕ) + k = k + 1 := by omega
        rw [h1k, List.getD_cons_succ]
        cases j with
        | zero => simpa using le_of_lt hbest
        | succ j' =>
          simp only [List.getD_cons_succ]
          exact hall j' (by simpa using hj)
      · intro j hj
        have h1k : (1 : ℕ) + k = k + 1 := by omega
        rw [h1k, List.getD_cons_succ]
        cases j with
        | zero => simpa using hbest
        | succ j' =>
          simp only [List.getD_cons_succ]
          exact hfirst j' (by omega)

lemma np_argmin_spec (l : List ℚ) (h : l ≠ []) :
    ∃ ri, np_argmin l = some ri ∧ ri < l.length ∧
      (∀ k, k < l.length → l.getD ri 0 ≤ l.getD k 0) ∧
      (∀ k, k < ri → l.getD ri 0 < l.getD k 0) := by
  cases l with
  | nil => exact absurd rfl h
  | cons x xs =>
    rcases argminGo_spec xs x 0 1 with ⟨heq, hall⟩ | ⟨k, hk, heq, hbest, hall, hfirst⟩
    · refine ⟨0, by rw [np_argmin, heq], Nat.succ_pos _, ?_, ?_⟩
      · intro j hj
        cases j with
        | zero => simp
        | succ j' =>
          simp only [List.getD_cons_succ, List.getD_cons_zero]
          exact hall j' (by simpa using hj)
      · intro j hj
        exact absurd hj (Nat.not_lt_zero j)
    · refine ⟨1 + k, by rw [np_argmin, heq], by simpa using by omega, ?_, ?_⟩
      · intro j hj
        have h1k : (1 : ℕ) + k = k + 1 := by omega
        rw [h1k, List.getD_cons_succ]
        cases j with
        | zero => simpa using le_of_lt hbest
        | succ j' =>
          simp only [List.getD_cons_succ]
          exact hall j' (by simpa using hj)
      · intro j hj
        have h1k : (1 : ℕ) + k = k + 1 := by omega
        rw [h1k, List.getD_cons_succ]
        cases j with
        | zero => simpa using hbest
        | succ j' =>
          simp only [List.getD_cons_succ]
          exact hfirst j' (by omega)

lemma cyclesLoop_palette (pot cur : List ℚ) (segments : List (ℕ × ℕ)) (nm : String)
    (smooth : Bool) (colorOf : ℕ → ℕ) :
    ∀ (js : List ℕ) (acc res : List PlotSeries),
      (∀ s ∈ acc, ∃ n, s.color = PlotColor.palette n) →
      cyclesLoop pot cur segments nm smooth colorOf js acc = Except.ok res →
      ∀ s ∈ res, ∃ n, s.color = PlotColor.palette n := by
  intro js
  induction js with
  | nil =>
    intro acc res hacc heq
    rw [cyclesLoop] at heq
    cases heq
    exact hacc
  | cons j rest ih =>
    intro acc res hacc heq
    rw [cyclesLoop] at heq
    rcases hseg : segments.get? j with _ | seg <;> rw [hseg] at heq
    · exact absurd heq (by simp)
    · cases smooth with
      | false =>
        simp only [Bool.false_eq_true, if_false] at heq
        refine ih _ res ?_ heq
        intro s hs
        rcases List.mem_append.mp hs with hs | hs
        · exact hacc s hs
        · rcases List.mem_singleton.mp hs with rfl
          exact ⟨colorOf j, rfl⟩
      | true =>
        simp only [if_true] at heq
        rcases hsv1 : savgol_filter (sliceList pot seg.1 seg.2) 11 3 with _ | o1 <;>
          rw [hsv1] at heq
        · exact absurd heq (by simp)
        · rcases hsv2 : savgol_filter (sliceList cur seg.1 seg.2) 11 3 with _ | o2 <;>
            rw [hsv2] at heq
          · exact absurd heq (by simp)
          · refine ih _ res ?_ heq
            intro s hs
            rcases List.mem_append.mp hs with hs | hs
            · exact hacc s hs
            · rcases List.mem_cons.mp hs with rfl | hs
              · exact ⟨colorOf j, rfl⟩
              · rcases List.mem_singleton.mp hs with rfl
                exact ⟨colorOf j, rfl⟩

/-- C7: `np.argmax` / `np.argmin` over the full current sequence locate the
oxidation and reduction peaks — the greatest and least current, resolving
ties to the first occurrence — with `locate_peaks([1,5,2,-3,0]) = (1, 3)`;
and peak marking is suppressed whenever `auto_split` is active: the figure
produced by `plot_single_cv` with `auto_split` contains no `Ox peak` or
`Red peak` series regardless of `mark_peaks`. -/
theorem locate_peaks_spec :
    (∀ l : List ℚ, l ≠ [] →
      ∃ oi ri, np_argmax l = some oi ∧ np_argmin l = some ri ∧
        oi < l.length ∧ ri < l.length ∧
        (∀ k, k < l.length → l.getD k 0 ≤ l.getD oi 0) ∧
        (∀ k, k < oi → l.getD k 0 < l.getD oi 0) ∧
        (∀ k, k < l.length → l.getD ri 0 ≤ l.getD k 0) ∧
        (∀ k, k < ri → l.getD ri 0 < l.getD k 0)) ∧
    (np_argmax [1, 5, 2, -3, 0] = some 1 ∧ np_argmin [1, 5, 2, -3, 0] = some 3) ∧
    (∀ (file : UploadedFile) (label : Option String) (smooth mark_peaks : Bool)
       (fig : Figure),
      plot_single_cv file label smooth mark_peaks true = Except.ok fig →
      (⟨"Ox peak", PlotColor.named "ro"⟩ : PlotSeries) ∉ fig.series ∧
      (⟨"Red peak", PlotColor.named "bo"⟩ : PlotSeries) ∉ fig.series) := by
  refine ⟨?_, ⟨by with_unfolding_all decide, by with_unfolding_all decide⟩, ?_⟩
  · intro l hl
    obtain ⟨oi, h1, h2, h3, h4⟩ := np_argmax_spec l hl
    obtain ⟨ri, h5, h6, h7, h8⟩ := np_argmin_spec l hl
    exact ⟨oi, ri, h1, h5, h2, h6, h3, h4, h7, h8⟩
  · intro file label smooth mark_peaks fig hok
    rw [plot_single_cv] at hok
    have hpal : ∀ s ∈ fig.series, ∃ n, s.color = PlotColor.palette n := by
      rcases hread : read_cv_data file with ⟨po, co, xu, yu⟩
      rw [hread] at hok
      rcases po with _ | pcol
      · exact absurd hok (by simp)
      · rcases co with _ | ccol
        · exact absurd hok (by simp)
        · simp only [if_true] at hok
          rcases hsplit : split_cycles_by_return_to_start (colVals pcol) (1 / 1000)
            with _ | segments <;> simp only [hsplit] at hok
          · exact absurd hok (by simp)
          · rcases hloop : cyclesLoop (colVals pcol) (colVals ccol) segments
                (label.getD file.name) smooth (fun j => j % 10)
                (select_cycles segments) [] with e | base <;> simp only [hloop] at hok
            · exact absurd hok (by simp)
            · simp only [Bool.not_true, Bool.and_false, Bool.false_eq_true, if_false] at hok
              cases hok
              exact cyclesLoop_palette (colVals pcol) (colVals ccol) segments
                (label.getD file.name) smooth (fun j => j % 10)
                (select_cycles segments) [] base
                (fun s hs => absurd hs (List.not_mem_nil s)) hloop
    constructor
    · intro hmem
      obtain ⟨n, hn⟩ := hpal _ hmem
      exact PlotColor.noConfusion hn
    · intro hmem
      obtain ⟨n, hn⟩ := hpal _ hmem
      exact PlotColor.noConfusion hn

/-- Witness for C7: the peak locator at the concrete current `[2, 7]` and
peak suppression on a concrete auto-split figure. -/
theorem locate_peaks_spec_witness :
    (∃ oi ri, np_argmax [(2 : ℚ), 7] = some oi ∧ np_argmin [(2 : ℚ), 7] = some ri ∧
      oi < 2 ∧ ri < 2 ∧
      (∀ k, k < 2 → List.getD [(2 : ℚ), 7] k 0 ≤ List.getD [(2 : ℚ), 7] oi 0) ∧
      (∀ k, k < oi → List.getD [(2 : ℚ), 7] k 0 < List.getD [(2 : ℚ), 7] oi 0) ∧
      (∀ k, k < 2 → List.getD [(2 : ℚ), 7] ri 0 ≤ List.getD [(2 : ℚ), 7] k 0) ∧
      (∀ k, k < ri → List.getD [(2 : ℚ), 7] ri 0 < List.getD [(2 : ℚ), 7] k 0)) ∧
    (⟨"Ox peak", PlotColor.named "ro"⟩ : PlotSeries) ∉
      (Figure.mk [⟨"s.csv cycle 1", PlotColor.palette 0⟩]
        "Potential (V)" "Current (A)").series ∧
    (⟨"Red peak", PlotColor.named "bo"⟩ : PlotSeries) ∉
      (Figure.mk [⟨"s.csv cycle 1", PlotColor.palette 0⟩]
        "Potential (V)" "Current (A)").series :=
  ⟨locate_peaks_spec.1 [(2 : ℚ), 7] (by decide),
   locate_peaks_spec.2.2
     ⟨"s.csv", some ⟨[("x", [some (CellVal.num 4), some (CellVal.num 5)]),
                      ("y", [some (CellVal.num 6), some (CellVal.num 7)])]⟩⟩
     none false true
     (Figure.mk [⟨"s.csv cycle 1", PlotColor.palette 0⟩] "Potential (V)" "Current (A)")
     (by with_unfolding_all rfl)⟩

/-! ## Properties of the multi-file overlay -/

lemma cyclesLoop_sub (pot cur : List ℚ) (segments : List (ℕ × ℕ)) (nm : String)
    (smooth : Bool) (colorOf : ℕ → ℕ) :
    ∀ (js : List ℕ) (acc res : List PlotSeries),
      cyclesLoop pot cur segments nm smooth colorOf js acc = Except.ok res →
      ∀ s ∈ acc, s ∈ res := by
  intro js
  induction js with
  | nil =>
    intro acc res heq
    rw [cyclesLoop] at heq
    cases heq
    exact fun s hs => hs
  | cons j rest ih =>
    intro acc res heq
    rw [cyclesLoop] at heq
    rcases hseg : segments.get? j with _ | seg <;> rw [hseg] at heq
    · exact absurd heq (by simp)
    · cases smooth with
      | false =>
        simp only [Bool.false_eq_true, if_false] at heq
        intro s hs
        exact ih _ res heq s (List.mem_append.mpr (Or.inl hs))
      | true =>
        simp only [if_true] at heq
        rcases hsv1 : savgol_filter (sliceList pot seg.1 seg.2) 11 3 with _ | o1 <;>
          rw [hsv1] at heq
        · exact absurd heq (by simp)
        · rcases hsv2 : savgol_filter (sliceList cur seg.1 seg.2) 11 3 with _ | o2 <;>
            rw [hsv2] at heq
          · exact absurd heq (by simp)
          · intro s hs
            exact ih _ res heq s (List.mem_append.mpr (Or.inl hs))

lemma cyclesLoop_mem (pot cur : List ℚ) (segments : List (ℕ × ℕ)) (nm : String)
    (smooth : Bool) (colorOf : ℕ → ℕ) :
    ∀ (js : List ℕ) (acc res : List PlotSeries),
      cyclesLoop pot cur segments nm smooth colorOf js acc = Except.ok res →
      ∀ j ∈ js,
        (⟨nm ++ " cycle " ++ toString (j + 1),
          PlotColor.palette (colorOf j)⟩ : PlotSeries) ∈ res := by
  intro js
  induction js with
  | nil =>
    intro acc res heq j hj
    exact absurd hj (List.not_mem_nil j)
  | cons j0 rest ih =>
    intro acc res heq j hj
    rw [cyclesLoop] at heq
    rcases hseg : segments.get? j0 with _ | seg <;> rw [hseg] at heq
    · exact absurd heq (by simp)
    · rcases List.mem_cons.mp hj with rfl | hj
      · cases smooth with
        | false =>
          simp only [Bool.false_eq_true, if_false] at heq
          exact cyclesLoop_sub pot cur segments nm false colorOf rest _ res heq _ (by simp)
        | true =>
          simp only [if_true] at heq
          rcases hsv1 : savgol_filter (sliceList pot seg.1 seg.2) 11 3 with _ | o1 <;>
            rw [hsv1] at heq
          · exact absurd heq (by simp)
          · rcases hsv2 : savgol_filter (sliceList cur seg.1 seg.2) 11 3 with _ | o2 <;>
              rw [hsv2] at heq
            · exact absurd heq (by simp)
            · exact cyclesLoop_sub pot cur segments nm true colorOf rest _ res heq _ (by simp)
      · cases smooth with
        | false =>
          simp only [Bool.false_eq_true, if_false] at heq
          exact ih _ res heq j hj
        | true =>
          simp only [if_true] at heq
          rcases hsv1 : savgol_filter (sliceList pot seg.1 seg.2) 11 3 with _ | o1 <;>
            rw [hsv1] at heq
          · exact absurd heq (by simp)
          · rcases hsv2 : savgol_filter (sliceList cur seg.1 seg.2) 11 3 with _ | o2 <;>
              rw [hsv2] at heq
            · exact absurd heq (by simp)
            · exact ih _ res heq j hj

lemma multiGo_mem (smooth : Bool) (sel : Option (List String)) (auto_split : Bool) :
    ∀ (files : List UploadedFile) (n : ℕ) (L : List PlotSeries),
      multiGo smooth sel auto_split files n = Except.ok L →
      ∀ (i : ℕ) (f : UploadedFile), files.get? i = some f →
        ∃ Lf, multiFileSeries (n + i) f smooth sel auto_split = Except.ok Lf ∧
          ∀ s ∈ Lf, s ∈ L := by
  intro files
  induction files with
  | nil =>
    intro n L heq i f hf
    exact absurd hf (by simp)
  | cons f0 rest ih =>
    intro n L heq i f hf
    rw [multiGo] at heq
    rcases hms : multiFileSeries n f0 smooth sel auto_split with e | here <;> rw [hms] at heq
    · exact absurd heq (by simp)
    · rcases hrest : multiGo smooth sel auto_split rest (n + 1) with e | others <;>
        rw [hrest] at heq
      · exact absurd heq (by simp)
      · cases heq
        cases i with
        | zero =>
          have hf0 : f0 = f := by simpa using hf
          subst hf0
          refine ⟨here, by rw [Nat.add_zero]; exact hms, ?_⟩
          intro s hs
          exact List.mem_append.mpr (Or.inl hs)
        | succ i' =>
          have hf' : rest.get? i' = some f := by simpa using hf
          obtain ⟨Lf, hLf1, hLf2⟩ := ih (n + 1) others hrest i' f hf'
          refine ⟨Lf, ?_, ?_⟩
          · rw [show n + (i' + 1) = n + 1 + i' from by omega]
            exact hLf1
          · intro s hs
            exact List.mem_append.mpr (Or.inr (hLf2 s hs))

/-- C8: in multi-file overlay mode with auto-split, cycle `j` of file `i`
(counting all uploaded files, selected and with data) is plotted with
palette colour `(i + j) % 10`; and the whole plot is deterministic — equal
inputs produce equal figures. -/
theorem multi_overlay_colors :
    (∀ (files : List UploadedFile) (smooth : Bool) (sel : Option (List String))
       (fig : Figure),
      plot_multi_cv files smooth sel true = Except.ok fig →
      ∀ (i : ℕ) (f : UploadedFile), files.get? i = some f →
        skipFile sel f.name = false →
        ∀ (pcol ccol : List (Option CellVal)) (xu yu : String),
          read_cv_data f = (some pcol, some ccol, xu, yu) →
          ∀ segs, split_cycles_by_return_to_start (colVals pcol) (1 / 1000) = some segs →
            ∀ j, j < segs.length →
              (⟨f.name ++ " cycle " ++ toString (j + 1),
                PlotColor.palette ((i + j) % 10)⟩ : PlotSeries) ∈ fig.series) ∧
    (∀ (files : List UploadedFile) (smooth : Bool) (sel : Option (List String))
       (auto_split : Bool) (fig fig' : Figure),
      plot_multi_cv files smooth sel auto_split = Except.ok fig →
      plot_multi_cv files smooth sel auto_split = Except.ok fig' → fig = fig') := by
  constructor
  · intro files smooth sel fig hok i f hf hskip pcol ccol xu yu hread segs hsplit j hj
    rw [plot_multi_cv] at hok
    rcases hmg : multiGo smooth sel true files 0 with e | L <;> rw [hmg] at hok
    · exact absurd hok (by simp)
    · cases hok
      obtain ⟨Lf, h1, h2⟩ := multiGo_mem smooth sel true files 0 L hmg i f hf
      rw [Nat.zero_add] at h1
      rw [multiFileSeries, hskip] at h1
      simp only [Bool.false_eq_true, if_false, hread, hsplit, if_true] at h1
      exact h2 _ (cyclesLoop_mem (colVals pcol) (colVals ccol) segs f.name smooth
        (fun j => (i + j) % 10) (select_cycles segs) [] Lf h1 j (List.mem_range.mpr hj))
  · intro files smooth sel auto_split fig fig' hok hok'
    rw [hok] at hok'
    cases hok'
    rfl

/-- Witness for C8 at a concrete one-file, one-cycle overlay. -/
theorem multi_overlay_colors_witness :
    (⟨"g.csv cycle 1", PlotColor.palette ((0 + 0) % 10)⟩ : PlotSeries) ∈
      (Figure.mk [⟨"g.csv cycle 1", PlotColor.palette 0⟩]
        "Potential (V)" "Current (A)").series :=
  multi_overlay_colors.1
    [⟨"g.csv", some ⟨[("x", [some (CellVal.num 0), some (CellVal.num 1)]),
                      ("y", [some (CellVal.num 0), some (CellVal.num 1)])]⟩⟩]
    false none
    (Figure.mk [⟨"g.csv cycle 1", PlotColor.palette 0⟩] "Potential (V)" "Current (A)")
    (by with_unfolding_all rfl) 0
    ⟨"g.csv", some ⟨[("x", [some (CellVal.num 0), some (CellVal.num 1)]),
                     ("y", [some (CellVal.num 0), some (CellVal.num 1)])]⟩⟩
    rfl rfl
    [some (CellVal.num 0), some (CellVal.num 1)]
    [some (CellVal.num 0), some (CellVal.num 1)] "V" "A" (by decide)
    [(0, 2)] (by with_unfolding_all decide) 0 (by decide)

/-- C9 (a bug in the code): the program does NOT take the multi-file axis
units from the first selected/loaded file.  The plotting loop has already
consumed `files[0]`'s upload stream, so the re-read at src/app.py line 131
raises `EmptyDataError` and the labels fall back to `Potential (V)` /
`Current (A)` whenever `files[0]` was plotted; its stored unit columns only
take effect when that file was deselected (and hence never plotted).  The
labels are exactly `secondReadUnits files sel`; in particular, at the
failing input — a selected single file carrying `x_unit = mV`,
`y_unit = mA` — the figure carries the default labels, not `mV`/`mA`. -/
theorem multi_units_consumed_stream :
    (∀ (files : List UploadedFile) (smooth : Bool) (sel : Option (List String))
       (auto_split : Bool) (fig : Figure),
      plot_multi_cv files smooth sel auto_split = Except.ok fig →
      fig.xlabel = "Potential (" ++ (secondReadUnits files sel).1 ++ ")" ∧
      fig.ylabel = "Current (" ++ (secondReadUnits files sel).2 ++ ")") ∧
    (∀ (f0 : UploadedFile) (rest : List UploadedFile) (smooth : Bool)
       (sel : Option (List String)) (auto_split : Bool) (fig : Figure),
      skipFile sel f0.name = false →
      plot_multi_cv (f0 :: rest) smooth sel auto_split = Except.ok fig →
      fig.xlabel = "Potential (V)" ∧ fig.ylabel = "Current (A)") ∧
    plot_multi_cv [⟨"u.csv", some ⟨[("x", [some (CellVal.num 0)]),
                                    ("y", [some (CellVal.num 1)]),
                                    ("x_unit", [some (CellVal.str "mV")]),
                                    ("y_unit", [some (CellVal.str "mA")])]⟩⟩]
        false (some ["u.csv"]) false =
      Except.ok ⟨[⟨"u (raw)", PlotColor.palette 0⟩],
                 "Potential (V)", "Current (A)"⟩ := by
  have hmain : ∀ (files : List UploadedFile) (smooth : Bool) (sel : Option (List String))
      (auto_split : Bool) (fig : Figure),
      plot_multi_cv files smooth sel auto_split = Except.ok fig →
      fig.xlabel = "Potential (" ++ (secondReadUnits files sel).1 ++ ")" ∧
      fig.ylabel = "Current (" ++ (secondReadUnits files sel).2 ++ ")" := by
    intro files smooth sel auto_split fig hok
    rw [plot_multi_cv] at hok
    rcases hmg : multiGo smooth sel auto_split files 0 with e | L <;> rw [hmg] at hok
    · exact absurd hok (by simp)
    · cases hok
      exact ⟨rfl, rfl⟩
  refine ⟨hmain, ?_, by with_unfolding_all rfl⟩
  intro f0 rest smooth sel auto_split fig hskip hok
  obtain ⟨hx, hy⟩ := hmain (f0 :: rest) smooth sel auto_split fig hok
  have hu : secondReadUnits (f0 :: rest) sel = ("V", "A") := by
    rw [secondReadUnits, hskip]
    simp
  refine ⟨?_, ?_⟩
  · rw [hx, hu]
    decide
  · rw [hy, hu]
    decide

/-- Witness for C9's theorem at the failing input: the selected `mV`/`mA`
file nevertheless yields the default axis labels. -/
theorem multi_units_consumed_stream_witness :
    (Figure.mk [⟨"u (raw)", PlotColor.palette 0⟩]
        "Potential (V)" "Current (A)").xlabel = "Potential (V)" ∧
    (Figure.mk [⟨"u (raw)", PlotColor.palette 0⟩]
        "Potential (V)" "Current (A)").ylabel = "Current (A)" :=
  multi_units_consumed_stream.2.1
    ⟨"u.csv", some ⟨[("x", [some (CellVal.num 0)]), ("y", [some (CellVal.num 1)]),
                     ("x_unit", [some (CellVal.str "mV")]),
                     ("y_unit", [some (CellVal.str "mA")])]⟩⟩
    [] false (some ["u.csv"]) false
    (Figure.mk [⟨"u (raw)", PlotColor.palette 0⟩] "Potential (V)" "Current (A)")
    (by with_unfolding_all rfl) (by with_unfolding_all rfl)
